import Mathlib

/-!
Verification development for the `chachamir` container protocol
(`src/main.rs`).  Bytes are modelled as `List Nat`; Rust slicing that can
panic is modelled explicitly via `rustSlice`; fallible Rust functions
returning `io::Result` are modelled with the `CResult` type, whose
`panicked` constructor records a Rust panic (out-of-bounds slice,
`unwrap` on an error, internal `panic!`).

External cryptographic crates are handled as follows:

* `chacha20poly1305` (the AEAD cipher) is modelled concretely, following
  RFC 8439 which that crate implements: the ChaCha20 block function,
  keystream encryption and the Poly1305 tag.
* `ed25519_dalek` (signatures) and `sharks` (Shamir secret sharing) are
  modelled as capability interfaces (`Ed25519`, `SSS`), exactly the
  narrow interfaces the source calls through; theorems quantify over
  them, with the properties the source relies on taken as hypotheses.
-/

namespace CCM

/-- Rust `&v[a..b]` on a `Vec<u8>`: defined when `a ≤ b ≤ v.len()`,
otherwise the program panics (`none`). -/
def rustSlice (v : List Nat) (a b : Nat) : Option (List Nat) :=
  if a ≤ b ∧ b ≤ v.length then some ((v.drop a).take (b - a)) else none

/-- Result of running a fallible piece of Rust code: `ok`, an
`io::Error` with its message, or a Rust panic. -/
inductive CResult (α : Type) where
  | ok : α → CResult α
  | err : String → CResult α
  | panicked : CResult α
deriving DecidableEq

deriving instance DecidableEq for Except

/-! ### Constants from `main.rs` -/

def ALGO_VERSION : Nat := 1
def KEY_LENGTH_BYTES : Nat := 32
def NONCE_LENGTH_BYTES : Nat := 12
def PUBLIC_KEY_LENGTH : Nat := 32
def SIGNATURE_LENGTH : Nat := 64

def HEADER_FILE : List Nat := [67, 67, 77]
def HEADER_SHARE : List Nat := [67, 67, 77, 83]

def HEADER_PRE_NONCE_BYTES_FILE : Nat := 6
def HEADER_PRE_NONCE_BYTES_SHARE : Nat := 7

def HEADER_IS_SIGNED_BYTE_FILE : Nat := 6
def HEADER_IS_SIGNED_BYTE_SHARE : Nat := 7

def HEADER_LENGTH_FILE : Nat := HEADER_FILE.length + 1 + 1 + 1 + NONCE_LENGTH_BYTES
def HEADER_LENGTH_SHARE : Nat := HEADER_SHARE.length + 1 + 1 + 1 + NONCE_LENGTH_BYTES + 1

/-! ### External capability interfaces -/

/-- Interface of `ed25519_dalek` as used by the source: parsing
validity of public-key bytes and signature bytes
(`PublicKey::from_bytes` / `Signature::from_bytes` succeeding), and
signature verification `pk.verify(msg, sig)`.  Parsed keys and
signatures are identified with their byte strings (`to_bytes` is the
inverse of a successful `from_bytes` in that crate). -/
structure Ed25519 where
  pkValid : List Nat → Bool
  sigValid : List Nat → Bool
  verify : List Nat → List Nat → List Nat → Bool

/-- Interface of the `sharks` crate as used by the source:
`Sharks(t).dealer(key).take(p)` and `Sharks(t).recover(shares)`.
A `Share` is identified with its byte encoding (`Vec::from` /
`Share::try_from` round-trip in that crate). -/
structure SSS where
  deal : Nat → Nat → List Nat → List (List Nat)
  recover : Nat → List (List Nat) → Except String (List Nat)

/-- `Share::try_from(&[u8])` of the `sharks` crate: fails on byte
strings too short to hold an x coordinate and one y byte. -/
def share_try_from (b : List Nat) : CResult (List Nat) :=
  if b.length < 2 then .err "Invalid share bytes" else .ok b

/-! ### Header codec (`is_encrypted`, `construct_header_share`,
`share_from_file`) -/

/-- `is_encrypted` (main.rs lines 320-336): checks the `CCM` magic and
returns the full header.  Faithfully reproduces the source's read of
byte `HEADER_IS_SIGNED_BYTE_FILE = 6` (the first nonce byte — the
signed flag of the file layout lives at byte 5) and its unguarded
slice `file[0..114]` in the branch it takes for a nonzero byte 6. -/
def is_encrypted (file : List Nat) : CResult (List Nat) :=
  if file.length < HEADER_LENGTH_FILE then
    .err "File not encrypted (smaller than CCM header)"
  else if file.take HEADER_FILE.length ≠ HEADER_FILE then
    .err "File not encrypted (CCM header missing)"
  else if file.getD HEADER_IS_SIGNED_BYTE_FILE 0 ≠ 0 then
    match rustSlice file 0 (HEADER_LENGTH_FILE + PUBLIC_KEY_LENGTH + SIGNATURE_LENGTH) with
    | some h => .ok h
    | none => .panicked
  else
    .ok (file.take HEADER_LENGTH_FILE)

/-- `construct_header_share` (main.rs lines 423-444): magic, algorithm
version, threshold, signed flag, nonce, one padding byte. -/
def construct_header_share (threshold : Nat) (is_signed : Bool) (nonce : List Nat) :
    List Nat :=
  HEADER_SHARE ++ [ALGO_VERSION, threshold, if is_signed then 1 else 0] ++ nonce ++ [0]

/-- Parsed share file, mirroring `struct ShareFromFile`. -/
structure ShareFromFile where
  threshold : Nat
  is_signed : Bool
  nonce : List Nat
  pub_key : Option (List Nat)
  signature : Option (List Nat)
  share_data : List Nat
deriving DecidableEq

/-- `share_from_file` (main.rs lines 236-318): length check, nonce and
threshold reads, magic check, nonce comparison against the target
file's nonce, optional signed-header parsing, and extraction of the
share payload. -/
def share_from_file (E : Ed25519) (bytes : List Nat) (nonce : List Nat) :
    CResult ShareFromFile :=
  if bytes.length < HEADER_LENGTH_SHARE then
    .err "Invalid share (file smaller than CCMS header)"
  else
    let share_nonce := (bytes.drop HEADER_PRE_NONCE_BYTES_SHARE).take NONCE_LENGTH_BYTES
    let share_threshold := bytes.getD (HEADER_SHARE.length + 1) 0
    if bytes.take HEADER_SHARE.length ≠ HEADER_SHARE then
      .err "Invalid share (CCMS header missing)"
    else if share_nonce = nonce then
      if bytes.getD (HEADER_IS_SIGNED_BYTE_SHARE - 1) 0 ≠ 0 then
        if bytes.length < HEADER_LENGTH_SHARE + PUBLIC_KEY_LENGTH + SIGNATURE_LENGTH then
          .err "Invalid share (file smaller than signed CCMS header)"
        else
          let pkb := (bytes.drop HEADER_LENGTH_SHARE).take PUBLIC_KEY_LENGTH
          if ¬ E.pkValid pkb then
            .err "Invalid share (bad public key)"
          else
            let sgb := (bytes.drop (HEADER_LENGTH_SHARE + PUBLIC_KEY_LENGTH)).take SIGNATURE_LENGTH
            if ¬ E.sigValid sgb then
              .err "Invalid share (bad signature)"
            else
              match share_try_from
                  (bytes.drop (HEADER_LENGTH_SHARE + PUBLIC_KEY_LENGTH + SIGNATURE_LENGTH)) with
              | .ok sh => .ok ⟨share_threshold, true, share_nonce, some pkb, some sgb, sh⟩
              | .err e => .err e
              | .panicked => .panicked
      else
        match share_try_from (bytes.drop HEADER_LENGTH_SHARE) with
        | .ok sh => .ok ⟨share_threshold, false, share_nonce, none, none, sh⟩
        | .err e => .err e
        | .panicked => .panicked
    else
      .err "Share does not match target file nonce"

/-! ### The cipher: ChaCha20-Poly1305 (RFC 8439), the algorithm
implemented by the `chacha20poly1305` crate used in `chacha_encrypt` /
`chacha_decrypt` (main.rs lines 387-421).  32-bit words are `Nat`
reduced mod `2 ^ 32`. -/

def wadd (a b : Nat) : Nat := (a + b) % 4294967296

def rotl32 (x n : Nat) : Nat := ((x <<< n) % 4294967296) ||| (x >>> (32 - n))

/-- Little-endian 32-bit word from four bytes, chunking the list. -/
def bytesToWords : List Nat → List Nat
  | b0 :: b1 :: b2 :: b3 :: rest =>
      (b0 + 256 * b1 + 65536 * b2 + 16777216 * b3) :: bytesToWords rest
  | _ => []

def wordToBytes (w : Nat) : List Nat :=
  [w % 256, w / 256 % 256, w / 65536 % 256, w / 16777216 % 256]

/-- One ChaCha20 quarter round on state positions `i1 i2 i3 i4`. -/
def quarterRound (s : List Nat) (i1 i2 i3 i4 : Nat) : List Nat :=
  let a := s.getD i1 0
  let b := s.getD i2 0
  let c := s.getD i3 0
  let d := s.getD i4 0
  let a := wadd a b
  let d := rotl32 (Nat.xor d a) 16
  let c := wadd c d
  let b := rotl32 (Nat.xor b c) 12
  let a := wadd a b
  let d := rotl32 (Nat.xor d a) 8
  let c := wadd c d
  let b := rotl32 (Nat.xor b c) 7
  (((s.set i1 a).set i2 b).set i3 c).set i4 d

/-- Column round followed by diagonal round. -/
def doubleRound (s : List Nat) : List Nat :=
  let s := quarterRound s 0 4 8 12
  let s := quarterRound s 1 5 9 13
  let s := quarterRound s 2 6 10 14
  let s := quarterRound s 3 7 11 15
  let s := quarterRound s 0 5 10 15
  let s := quarterRound s 1 6 11 12
  let s := quarterRound s 2 7 8 13
  quarterRound s 3 4 9 14

def chachaRounds : Nat → List Nat → List Nat
  | 0, s => s
  | n + 1, s => chachaRounds n (doubleRound s)

/-- Initial ChaCha20 state: constants, 8 key words, counter, 3 nonce
words. -/
def chachaState (key nonce : List Nat) (counter : Nat) : List Nat :=
  [0x61707865, 0x3320646e, 0x79622d32, 0x6b206574] ++ bytesToWords key ++
    [counter % 4294967296] ++ bytesToWords nonce

/-- The ChaCha20 block function: 10 double rounds, add the initial
state, serialize little-endian. -/
def chachaBlock (key nonce : List Nat) (counter : Nat) : List Nat :=
  let s0 := chachaState key nonce counter
  ((List.zipWith wadd (chachaRounds 10 s0) s0).map wordToBytes).flatten

/-- `len` bytes of ChaCha20 keystream with the payload counter
starting at 1. -/
def keystream (key nonce : List Nat) (len : Nat) : List Nat :=
  (((List.range ((len + 63) / 64)).map fun i => chachaBlock key nonce (i + 1)).flatten).take len

/-- The Poly1305 prime `2 ^ 130 - 5`. -/
def P1305 : Nat := 1361129467683753853853498429727072845819

/-- Little-endian value of a byte string. -/
def leNum : List Nat → Nat
  | [] => 0
  | b :: rest => b + 256 * leNum rest

/-- `k` little-endian bytes of `n`. -/
def natToLE : Nat → Nat → List Nat
  | 0, _ => []
  | k + 1, n => n % 256 :: natToLE k (n / 256)

/-- Poly1305 accumulator: process 16-byte chunks, appending the 0x01
block terminator as `2 ^ (8 * chunkLen)`. -/
def polyAcc (r : Nat) : Nat → List Nat → Nat
  | acc, [] => acc
  | acc, b :: rest =>
      polyAcc r
        (((acc + leNum ((b :: rest).take 16) + 2 ^ (8 * ((b :: rest).take 16).length)) * r) %
          P1305)
        ((b :: rest).drop 16)
termination_by _ m => m.length
decreasing_by simp; omega

/-- Poly1305 MAC: clamp `r`, accumulate, add `s`, serialize 16 bytes. -/
def poly1305 (pkey msg : List Nat) : List Nat :=
  let r := Nat.land (leNum (pkey.take 16)) 0x0ffffffc0ffffffc0ffffffc0fffffff
  let s := leNum (pkey.drop 16)
  natToLE 16 ((polyAcc r 0 msg + s) % 340282366920938463463374607431768211456)

/-- The one-time Poly1305 key: first 32 bytes of the counter-0 block. -/
def poly_key (key nonce : List Nat) : List Nat := (chachaBlock key nonce 0).take 32

def pad16len (n : Nat) : Nat := (16 - n % 16) % 16

/-- The byte string MACed by the AEAD (empty AAD in this program). -/
def macData (aad ct : List Nat) : List Nat :=
  aad ++ List.replicate (pad16len aad.length) 0 ++ ct ++
    List.replicate (pad16len ct.length) 0 ++ natToLE 8 aad.length ++ natToLE 8 ct.length

/-- AEAD encryption: XOR keystream, append the Poly1305 tag. -/
def aead_encrypt (key nonce pt : List Nat) : List Nat :=
  let ct := List.zipWith Nat.xor pt (keystream key nonce pt.length)
  ct ++ poly1305 (poly_key key nonce) (macData [] ct)

/-- AEAD decryption: split off the 16-byte tag, recompute and compare
it, XOR the keystream back.  Any failure is `none` (the crate's opaque
`aead::Error`). -/
def aead_decrypt (key nonce data : List Nat) : Option (List Nat) :=
  if data.length < 16 then none
  else
    let ct := data.take (data.length - 16)
    let tag := data.drop (data.length - 16)
    if poly1305 (poly_key key nonce) (macData [] ct) = tag then
      some (List.zipWith Nat.xor ct (keystream key nonce ct.length))
    else none

/-- `chacha_decrypt` (main.rs lines 406-421): `Key::from_slice` /
`Nonce::from_slice` panic on wrong lengths; an AEAD failure is mapped
to the single obfuscated error. -/
def chacha_decrypt (key nonce ct : List Nat) : CResult (List Nat) :=
  if key.length ≠ KEY_LENGTH_BYTES ∨ nonce.length ≠ NONCE_LENGTH_BYTES then .panicked
  else
    match aead_decrypt key nonce ct with
    | some p => .ok p
    | none => .err "[reason obfuscated]"

/-- `chacha_encrypt` (main.rs lines 387-404): encrypt, then round-trip
the ciphertext through `chacha_decrypt` and panic unless the decrypted
check equals the plaintext. -/
def chacha_encrypt (key nonce pt : List Nat) : CResult (List Nat) :=
  if key.length ≠ KEY_LENGTH_BYTES ∨ nonce.length ≠ NONCE_LENGTH_BYTES then .panicked
  else
    let ct := aead_encrypt key nonce pt
    match chacha_decrypt key nonce ct with
    | .ok chk => if pt = chk then .ok ct else .panicked
    | _ => .panicked

/-! ### Operator policy and share signature verification -/

/-- Operator's answer to the threshold-mismatch prompt (main.rs lines
926-961): empty input keeps the file's current threshold, a number
overrides it, unparsable input (or Ctrl+C) exits the process. -/
inductive ThResp where
  | keep : ThResp
  | adopt : Nat → ThResp
  | abort : ThResp
deriving DecidableEq

/-- Interactive/CLI policy surrounding the core: `--strict`, the
operator's threshold-mismatch answers, and whether the operator
presses Enter at `ask_to_continue` prompts (`false` = Ctrl+C). -/
structure Policy where
  strict : Bool
  resolveThreshold : Nat → Nat → ThResp
  contOnWarn : Bool

/-- Outcome of a verification step: continue, or the process dies
(either `die_on_strict` or the operator refusing to continue). -/
inductive SVOut where
  | proceed : SVOut
  | aborted : SVOut
deriving DecidableEq

/-- `share_signature_verification` (main.rs lines 446-546).  Checks run
in source order: missing public key or signature warn and return early
(no continuation prompt); then file-unsigned/share-signed mismatch,
public-key inequality, and verification of the share's own signature
over the reconstructed signable bytes, each dying immediately under
`--strict`; any surfaced warning finally requires the operator to
continue.  A missing file public key would be an `unwrap` panic, which
also ends the process. -/
def share_signature_verification (E : Ed25519) (P : Policy) (is_signed : Bool)
    (pub_key : Option (List Nat)) (shf : ShareFromFile) : SVOut :=
  match pub_key with
  | none => .aborted
  | some pk =>
    match shf.pub_key, shf.signature with
    | none, _ => if P.strict then .aborted else .proceed
    | some _, none => if P.strict then .aborted else .proceed
    | some spk, some ssig =>
      let w1 : Bool := !is_signed && shf.is_signed
      if w1 && P.strict then .aborted
      else
        let w2 : Bool := decide (spk ≠ pk)
        if w2 && P.strict then .aborted
        else
          let w3 : Bool := shf.is_signed &&
            !(E.verify spk
              (construct_header_share shf.threshold shf.is_signed shf.nonce ++ spk ++
                shf.share_data) ssig)
          if w3 && P.strict then .aborted
          else if w1 || w2 || w3 then
            if P.contOnWarn then .proceed else .aborted
          else .proceed

/-! ### Share gathering (decrypt path, main.rs lines 897-983) -/

/-- Mutable state of the share scan: the effective threshold (the
source mutates its local `threshold` on operator override), the share
payload pool, and whether the process has died. -/
structure GatherState where
  threshold : Nat
  shares : List (List Nat)
  aborted : Bool
deriving DecidableEq

/-- Threshold-mismatch resolution inside the glob loop (main.rs lines
926-961): if the parsed share's threshold differs from the current
effective threshold, consult the operator — keep the current value,
adopt an override (the source mutates its local `threshold`), or exit
the process. -/
def gather_resolve (P : Policy) (st : GatherState) (shareThreshold : Nat) : GatherState :=
  if shareThreshold ≠ st.threshold then
    match P.resolveThreshold st.threshold shareThreshold with
    | .keep => st
    | .adopt t => { st with threshold := t }
    | .abort => { st with aborted := true }
  else st

/-- The conditional signature check inside the glob loop (main.rs
lines 963-965): run only when the file is signed and the share claims
to be signed. -/
def gather_sv (E : Ed25519) (P : Policy) (is_signed : Bool) (pub_key : Option (List Nat))
    (shf : ShareFromFile) : SVOut :=
  if is_signed && shf.is_signed then share_signature_verification E P is_signed pub_key shf
  else .proceed

/-- The `Ok(shf)` arm of the glob loop: threshold resolution, then the
conditional signature check, then `shares.push(shf.share_data)`. -/
def gather_accept (E : Ed25519) (P : Policy) (is_signed : Bool) (pub_key : Option (List Nat))
    (st : GatherState) (shf : ShareFromFile) : GatherState :=
  let st1 := gather_resolve P st shf.threshold
  if st1.aborted then st1
  else
    match gather_sv E P is_signed pub_key shf with
    | .aborted => { st1 with aborted := true }
    | .proceed => { st1 with shares := st1.shares ++ [shf.share_data] }

/-- One iteration of the glob loop (main.rs lines 917-976): parse the
candidate; on any per-share error skip it; on success resolve a
threshold mismatch via the operator, run signature verification when
both the file and the share are signed, then push the share payload. -/
def gather_step (E : Ed25519) (P : Policy) (is_signed : Bool) (pub_key : Option (List Nat))
    (nonce : List Nat) (st : GatherState) (cand : List Nat) : GatherState :=
  if st.aborted then st
  else
    match share_from_file E cand nonce with
    | .err _ => st
    | .panicked => { st with aborted := true }
    | .ok shf => gather_accept E P is_signed pub_key st shf

/-- The full (exhaustive) directory scan. -/
def gather (E : Ed25519) (P : Policy) (is_signed : Bool) (pub_key : Option (List Nat))
    (nonce : List Nat) (st : GatherState) (cands : List (List Nat)) : GatherState :=
  cands.foldl (gather_step E P is_signed pub_key nonce) st

/-! ### Target file processing (decrypt path, main.rs lines 806-887) -/

/-- Fields extracted from the target file's header. -/
structure TargetInfo where
  version : Nat
  threshold : Nat
  is_signed : Bool
  nonce : List Nat
  pub_key : Option (List Nat)
  signature : Option (List Nat)
  contents : List Nat
deriving DecidableEq

/-- Header field extraction for the target file: `is_encrypted`, then
version/threshold/nonce reads from the returned header, the signed
flag read from byte 5 of the file, signed-header length check, public
key and signature slices out of the header (Rust-panicking slices when
the header is short), parse-failure warnings that downgrade the file
to unsigned under operator continuation, and the final payload split
whose length depends on the (possibly downgraded) signed flag. -/
def process_target (E : Ed25519) (P : Policy) (bytes : List Nat) : CResult TargetInfo :=
  match is_encrypted bytes with
  | .err e => .err e
  | .panicked => .panicked
  | .ok header =>
    let version := header.getD HEADER_FILE.length 0
    let fthreshold := header.getD (HEADER_FILE.length + 1) 0
    let fnonce := (header.drop HEADER_PRE_NONCE_BYTES_FILE).take NONCE_LENGTH_BYTES
    if bytes.getD (HEADER_IS_SIGNED_BYTE_FILE - 1) 0 ≠ 0 then
      if bytes.length < HEADER_LENGTH_FILE + PUBLIC_KEY_LENGTH + SIGNATURE_LENGTH then
        .err "Target file failed validation: smaller than signed CCM header"
      else
        match rustSlice header HEADER_LENGTH_FILE (HEADER_LENGTH_FILE + PUBLIC_KEY_LENGTH) with
        | none => .panicked
        | some pkb =>
          if ¬ E.pkValid pkb ∧ P.strict then .err "strict abort (target file bad public key)"
          else if ¬ E.pkValid pkb ∧ ¬ P.contOnWarn then .err "operator abort (bad public key)"
          else
            match rustSlice header (HEADER_LENGTH_FILE + PUBLIC_KEY_LENGTH)
                (HEADER_LENGTH_FILE + PUBLIC_KEY_LENGTH + SIGNATURE_LENGTH) with
            | none => .panicked
            | some sgb =>
              if ¬ E.sigValid sgb ∧ P.strict then
                .err "strict abort (target file bad signature)"
              else if ¬ E.sigValid sgb ∧ ¬ P.contOnWarn then
                .err "operator abort (bad signature)"
              else
                let fsigned : Bool := E.pkValid pkb && E.sigValid sgb
                .ok ⟨version, fthreshold, fsigned, fnonce,
                  if E.pkValid pkb then some pkb else none,
                  if E.sigValid sgb then some sgb else none,
                  bytes.drop
                    (if fsigned then
                      HEADER_LENGTH_FILE + PUBLIC_KEY_LENGTH + SIGNATURE_LENGTH
                    else HEADER_LENGTH_FILE)⟩
    else
      .ok ⟨version, fthreshold, false, fnonce, none, none, bytes.drop HEADER_LENGTH_FILE⟩

/-! ### Decrypt tail (main.rs lines 978-1094) -/

/-- Signable byte sequence of the encrypted file: header fields with
the signed flag forced to 1, nonce, public key, then the ciphertext.
Used both when signing (with `version = ALGO_VERSION`, lines 754-763)
and when reconstructing for verification (lines 991-1005, with the
parsed version and the current effective threshold). -/
def file_signable (version threshold : Nat) (nonce pk body : List Nat) : List Nat :=
  HEADER_FILE ++ [version, threshold, 1] ++ nonce ++ pk ++ body

/-- Outcome of a decrypt invocation: fatal error (process exit, no
plaintext written), Rust panic, or success writing the plaintext
(`success version plaintext` also records the displayed algorithm
version). -/
inductive DecOutcome where
  | fatal : String → DecOutcome
  | panicked : DecOutcome
  | success : Nat → List Nat → DecOutcome
deriving DecidableEq

/-- Everything after the scan: zero-share check, file signature
verification (strict/continue policy), key recovery with the current
effective threshold, and AEAD decryption of the payload. -/
def decrypt_after_gather (E : Ed25519) (S : SSS) (P : Policy) (info : TargetInfo)
    (st : GatherState) : DecOutcome :=
  if st.aborted then .fatal "aborted during share gathering"
  else if st.shares.length < 1 then .fatal "Zero shares located"
  else
    let sigcheck : SVOut :=
      if info.is_signed then
        match info.pub_key, info.signature with
        | some pk, some sg =>
          if E.verify pk (file_signable info.version st.threshold info.nonce pk info.contents)
              sg then .proceed
          else if P.strict then .aborted
          else if P.contOnWarn then .proceed
          else .aborted
        | _, _ => .aborted
      else .proceed
    match sigcheck with
    | .aborted => .fatal "signing mismatch with encrypted file"
    | .proceed =>
      match S.recover st.threshold st.shares with
      | .error e => .fatal e
      | .ok key =>
        match chacha_decrypt key info.nonce info.contents with
        | .err _ => .fatal "Failed to decrypt file!"
        | .panicked => .panicked
        | .ok pt => .success info.version pt

/-- Share gathering plus the decrypt tail, starting from parsed target
info. -/
def decrypt_from_info (E : Ed25519) (S : SSS) (P : Policy) (info : TargetInfo)
    (cands : List (List Nat)) : DecOutcome :=
  decrypt_after_gather E S P info
    (gather E P info.is_signed info.pub_key info.nonce ⟨info.threshold, [], false⟩ cands)

/-- The whole decrypt command on the target file's bytes and the
candidate share files found in the directory. -/
def decrypt_run (E : Ed25519) (S : SSS) (P : Policy) (target : List Nat)
    (cands : List (List Nat)) : DecOutcome :=
  match process_target E P target with
  | .err e => .fatal e
  | .panicked => .panicked
  | .ok info => decrypt_from_info E S P info cands

/-! ### Encrypt path (main.rs lines 608-791) -/

/-- One share file's bytes (main.rs lines 700-720): header, then for
signed shares the public key and a signature over header + public key
+ share payload, then the payload.  `signFn` is the ephemeral
`ed25519_keypair.sign`. -/
def share_file_bytes (threshold : Nat) (sign : Bool) (nonce pk : List Nat)
    (signFn : List Nat → List Nat) (s : List Nat) : List Nat :=
  let header := construct_header_share threshold sign nonce
  if sign then
    let pre := header ++ pk
    pre ++ signFn (pre ++ s) ++ s
  else header ++ s

/-- The encrypted file's bytes (main.rs lines 733-771). -/
def enc_file_bytes (threshold : Nat) (sign : Bool) (nonce pk : List Nat)
    (signFn : List Nat → List Nat) (ct : List Nat) : List Nat :=
  let base := HEADER_FILE ++ [ALGO_VERSION, threshold, if sign then 1 else 0] ++ nonce
  if sign then
    let pre := base ++ pk
    pre ++ signFn (pre ++ ct) ++ ct
  else base ++ ct

/-- The collection of shares the encrypt path feeds back into
`sss.recover` for its post-split self-check (main.rs lines 666-667):
every share the dealer produced. -/
def encrypt_selfcheck_pool (S : SSS) (threshold players : Nat) (key : List Nat) :
    List (List Nat) :=
  S.deal threshold players key

/-- Outcome of an encrypt invocation.  `panicked ws` is a panic after
the file writes `ws` already happened; `done shareFiles encFile` lists
every written output. -/
inductive EncOutcome where
  | configError : String → EncOutcome
  | panicked : List (List Nat) → EncOutcome
  | done : List (List Nat) → List Nat → EncOutcome
deriving DecidableEq

/-- The encrypt command (main.rs lines 608-791): configuration checks,
key split, post-split self-check (recover from all produced shares,
panic on mismatch — before any file is written), share file writes,
payload encryption, encrypted file write. -/
def encrypt_run (S : SSS) (players threshold : Nat) (sign : Bool)
    (key nonce pk : List Nat) (signFn : List Nat → List Nat) (plaintext : List Nat) :
    EncOutcome :=
  if players < threshold then .configError "Share threshold exceeds maximum number of players"
  else if players < 1 then .configError "Number of shares cannot be zero"
  else if threshold < 1 then .configError "Threshold of shares cannot be zero"
  else
    let shares := encrypt_selfcheck_pool S threshold players key
    match S.recover threshold shares with
    | .error _ => .panicked []
    | .ok recovered =>
      if recovered ≠ key then .panicked []
      else
        let share_files := shares.map (share_file_bytes threshold sign nonce pk signFn)
        match chacha_encrypt key nonce plaintext with
        | .ok ct => .done share_files (enc_file_bytes threshold sign nonce pk signFn ct)
        | _ => .panicked share_files

/-! ### Derived decoders and share predicates used in theorem
statements -/

/-- The share payload a candidate file contributes, if it parses. -/
def candData (E : Ed25519) (nonce c : List Nat) : Option (List Nat) :=
  match share_from_file E c nonce with
  | .ok shf => some shf.share_data
  | _ => none

/-- A candidate file that parses as a signed share for this nonce,
with the given threshold, carrying the file's public key `fpk`, whose
signature verifies over the reconstructed signable bytes. -/
def goodSignedShareB (E : Ed25519) (nonce : List Nat) (t : Nat) (fpk c : List Nat) : Bool :=
  match share_from_file E c nonce with
  | .ok shf =>
    shf.threshold == t && shf.is_signed && shf.pub_key == some fpk &&
      (match shf.signature with
       | some sg =>
         E.verify fpk
           (construct_header_share shf.threshold shf.is_signed shf.nonce ++ fpk ++
             shf.share_data) sg
       | none => false)
  | _ => false

/-- A candidate file that parses as a signed share for this nonce with
the given threshold, but was re-signed under a different keypair: its
embedded public key differs from the file's, while its signature still
verifies under its own embedded key. -/
def reSignedShareB (E : Ed25519) (nonce : List Nat) (t : Nat) (fpk c : List Nat) : Bool :=
  match share_from_file E c nonce with
  | .ok shf =>
    shf.threshold == t && shf.is_signed &&
      (match shf.pub_key, shf.signature with
       | some spk, some sg =>
         spk != fpk &&
           E.verify spk
             (construct_header_share shf.threshold shf.is_signed shf.nonce ++ spk ++
               shf.share_data) sg
       | _, _ => false)
  | _ => false

/-- An unsigned encrypted-file container with an arbitrary version
byte: the writer's layout (main.rs lines 733-771) with the version
field free. -/
def enc_file_with_version (v t : Nat) (nonce ct : List Nat) : List Nat :=
  HEADER_FILE ++ [v, t, 0] ++ nonce ++ ct

/-! ### Concrete instantiations for witnesses and counterexamples -/

/-- Signature backend accepting everything (concrete witness
instance). -/
def trivialEd : Ed25519 := ⟨fun _ => true, fun _ => true, fun _ _ _ => true⟩

/-- Non-strict operator who keeps the file threshold and always
continues. -/
def lenientPolicy : Policy := ⟨false, fun _ _ => .keep, true⟩

/-- Strict mode (operator answers are irrelevant once strict kills the
process). -/
def strictPolicy : Policy := ⟨true, fun _ _ => .keep, true⟩

/-- Operator who, asked once about a mismatch between file threshold
`t0` and share threshold `t1`, overrides to `o`; any other prompt
kills the process. -/
def overridePolicy (t0 t1 o : Nat) (strict : Bool) : Policy :=
  ⟨strict, fun a b => if a = t0 ∧ b = t1 then .adopt o else .abort, true⟩

def key0 : List Nat := List.replicate 32 4

def nonce0 : List Nat := List.replicate 12 3

/-- A nonce whose first byte is zero (used to route `is_encrypted`
into its unsigned branch for unsigned files). -/
def nonceZ : List Nat := 0 :: List.replicate 11 3

def fpk0 : List Nat := List.replicate 32 1

def bpk0 : List Nat := List.replicate 32 2

def gsig0 : List Nat := List.replicate 64 8

def fsig0 : List Nat := List.replicate 64 9

/-- A toy but well-typed secret-sharing backend: share `i` is
`(i+1) :: key`; recovery needs `threshold` many shares and returns the
tail of the first. -/
def tailSSS : SSS :=
  ⟨fun _ p key => (List.range p).map fun i => (i + 1) :: key,
   fun t ss =>
     match ss with
     | [] => .error "Not enough shares to recover the original secret"
     | s :: _ => if t ≤ ss.length then .ok s.tail else
         .error "Not enough shares to recover the original secret"⟩

/-- A secret-sharing backend whose recovery ignores the threshold
(used to instantiate theorems whose hypotheses pin the recovery result
at one specific threshold). -/
def anySSS : SSS := ⟨fun _ _ _ => [], fun _ ss => .ok (ss.headD []).tail⟩

/-- C1 failing input: a valid signed file container whose random nonce
begins with a zero byte. -/
def c1_input : List Nat :=
  HEADER_FILE ++ [1, 2, 1] ++ (0 :: List.replicate 11 7) ++ List.replicate 32 3 ++
    List.replicate 64 4 ++ List.replicate 16 5

/-- C4 failing input: a signed file container truncated right after
the 18-byte base header (fewer bytes than the signed header length
implies). -/
def c4_input : List Nat := HEADER_FILE ++ [1, 2, 1] ++ (1 :: List.replicate 11 7)

/-- An unsigned share file for `nonce0` with threshold 2 and payload
`1 :: key0`. -/
def wshare1 : List Nat := HEADER_SHARE ++ [1, 2, 0] ++ nonce0 ++ [0] ++ (1 :: key0)

/-- A correctly signed share (file key `fpk0`) with threshold 2 and
payload `1 :: key0`. -/
def wg1 : List Nat := HEADER_SHARE ++ [1, 2, 1] ++ nonce0 ++ [0] ++ fpk0 ++ gsig0 ++ (1 :: key0)

/-- A share re-signed under `bpk0 ≠ fpk0`, threshold 2, payload
`2 :: key0`. -/
def wb1 : List Nat := HEADER_SHARE ++ [1, 2, 1] ++ nonce0 ++ [0] ++ bpk0 ++ gsig0 ++ (2 :: key0)

/-- A signed share with threshold 3 (mismatching a file threshold of
2), payload `1 :: key0`. -/
def w91 : List Nat := HEADER_SHARE ++ [1, 3, 1] ++ nonce0 ++ [0] ++ fpk0 ++ gsig0 ++ (1 :: key0)

/-- A signed share with threshold 5 (the overridden value), payload
`2 :: key0`. -/
def w92 : List Nat := HEADER_SHARE ++ [1, 5, 1] ++ nonce0 ++ [0] ++ fpk0 ++ gsig0 ++ (2 :: key0)

/-- The signable bytes of the C9 witness's target file (version 7,
header threshold 2). -/
def c9m0 : List Nat := file_signable 7 2 nonce0 fpk0 (aead_encrypt key0 nonce0 [])

/-- Signature backend for the C9 witness: `fsig0` verifies exactly
over `c9m0`; every other signature verifies. -/
def c9Ed : Ed25519 :=
  ⟨fun _ => true, fun _ => true, fun _ m sg => !(sg == fsig0) || (m == c9m0)⟩

/-! ## Helper lemmas about the cipher model -/

lemma xor_cancel_right (a b : Nat) : Nat.xor (Nat.xor a b) b = a := by
  have h : a ^^^ b ^^^ b = a := by rw [Nat.xor_assoc, Nat.xor_self, Nat.xor_zero]
  exact h

lemma zipWith_xor_cancel :
    ∀ p ks : List Nat, p.length ≤ ks.length →
      List.zipWith Nat.xor (List.zipWith Nat.xor p ks) ks = p
  | [], _, _ => by simp
  | _ :: p, [], h => by simp at h
  | a :: p, b :: ks, h => by
      simp only [List.zipWith_cons_cons]
      rw [zipWith_xor_cancel p ks (by simpa using h), xor_cancel_right]

lemma natToLE_length : ∀ k n, (natToLE k n).length = k
  | 0, _ => rfl
  | k + 1, n => by simp [natToLE, natToLE_length k (n / 256)]

lemma poly1305_length (pkey msg : List Nat) : (poly1305 pkey msg).length = 16 := by
  simp [poly1305, natToLE_length]

lemma bytesToWords_length : ∀ l : List Nat, (bytesToWords l).length = l.length / 4
  | b0 :: b1 :: b2 :: b3 :: rest => by
      have h := bytesToWords_length rest
      simp [bytesToWords, h]
      omega
  | [] => by simp [bytesToWords]
  | [_] => by simp [bytesToWords]
  | [_, _] => by simp [bytesToWords]
  | [_, _, _] => by simp [bytesToWords]

lemma quarterRound_length (s : List Nat) (i1 i2 i3 i4 : Nat) :
    (quarterRound s i1 i2 i3 i4).length = s.length := by
  simp [quarterRound]

lemma doubleRound_length (s : List Nat) : (doubleRound s).length = s.length := by
  simp [doubleRound, quarterRound_length]

lemma chachaRounds_length : ∀ (n : Nat) (s : List Nat), (chachaRounds n s).length = s.length
  | 0, _ => rfl
  | n + 1, s => by
      rw [chachaRounds, chachaRounds_length n (doubleRound s), doubleRound_length]

lemma flatten_map_const_length {α : Type} (f : α → List Nat) (k : Nat) :
    ∀ l : List α, (∀ a ∈ l, (f a).length = k) → ((l.map f).flatten).length = k * l.length
  | [], _ => by simp
  | a :: as, h => by
      have h1 : (f a).length = k := h a (List.mem_cons_self a as)
      have h2 := flatten_map_const_length f k as fun x hx => h x (List.mem_cons_of_mem a hx)
      simp [h1, h2]
      ring

lemma chachaState_length (key nonce : List Nat) (ctr : Nat) (hk : key.length = 32)
    (hn : nonce.length = 12) : (chachaState key nonce ctr).length = 16 := by
  simp [chachaState, bytesToWords_length, hk, hn]

lemma chachaBlock_length (key nonce : List Nat) (ctr : Nat) (hk : key.length = 32)
    (hn : nonce.length = 12) : (chachaBlock key nonce ctr).length = 64 := by
  have hs := chachaState_length key nonce ctr hk hn
  simp only [chachaBlock]
  rw [flatten_map_const_length wordToBytes 4 _ fun a _ => by simp [wordToBytes]]
  rw [List.length_zipWith, chachaRounds_length, hs]
  norm_num

lemma keystream_length (key nonce : List Nat) (len : Nat) (hk : key.length = 32)
    (hn : nonce.length = 12) : (keystream key nonce len).length = len := by
  simp only [keystream]
  rw [List.length_take]
  rw [flatten_map_const_length _ 64 _ fun i _ => chachaBlock_length key nonce (i + 1) hk hn]
  rw [List.length_range]
  have h1 := Nat.div_add_mod (len + 63) 64
  have h2 : (len + 63) % 64 < 64 := Nat.mod_lt _ (by norm_num)
  omega

/-- The AEAD round trip: decrypting what `aead_encrypt` produced with
the same key and nonce recovers the plaintext. -/
lemma aead_roundtrip (key nonce pt : List Nat) (hk : key.length = 32)
    (hn : nonce.length = 12) :
    aead_decrypt key nonce (aead_encrypt key nonce pt) = some pt := by
  have hks := keystream_length key nonce pt.length hk hn
  have hct : (List.zipWith Nat.xor pt (keystream key nonce pt.length)).length = pt.length := by
    rw [List.length_zipWith, hks, Nat.min_self]
  simp only [aead_encrypt, aead_decrypt]
  have htag := poly1305_length (poly_key key nonce)
    (macData [] (List.zipWith Nat.xor pt (keystream key nonce pt.length)))
  rw [if_neg (by simp [hct, htag])]
  have hsub :
      (List.zipWith Nat.xor pt (keystream key nonce pt.length) ++
        poly1305 (poly_key key nonce)
          (macData [] (List.zipWith Nat.xor pt (keystream key nonce pt.length)))).length - 16 =
      (List.zipWith Nat.xor pt (keystream key nonce pt.length)).length := by
    simp [htag]
  rw [hsub, List.take_left, List.drop_left, if_pos rfl, hct]
  exact congrArg some (zipWith_xor_cancel pt _ (le_of_eq hks.symm))

/-- `chacha_decrypt` round trip at the `CResult` level. -/
lemma chacha_decrypt_aead (key nonce pt : List Nat) (hk : key.length = KEY_LENGTH_BYTES)
    (hn : nonce.length = NONCE_LENGTH_BYTES) :
    chacha_decrypt key nonce (aead_encrypt key nonce pt) = .ok pt := by
  simp only [chacha_decrypt]
  rw [if_neg (by simp [hk, hn])]
  rw [aead_roundtrip key nonce pt hk hn]

/-- `chacha_encrypt` succeeds (its internal self-decrypt check
passes) and returns the AEAD ciphertext. -/
lemma chacha_encrypt_ok (key nonce pt : List Nat) (hk : key.length = KEY_LENGTH_BYTES)
    (hn : nonce.length = NONCE_LENGTH_BYTES) :
    chacha_encrypt key nonce pt = .ok (aead_encrypt key nonce pt) := by
  simp only [chacha_encrypt]
  rw [if_neg (by simp [hk, hn])]
  rw [chacha_decrypt_aead key nonce pt hk hn]
  simp

/-! ## Claim theorems -/

set_option maxRecDepth 8000 in
/-- Claim C1, refuted (code bug).  `c1_input` is a valid signed file
container (signed-flag byte at offset 5 is 1) whose nonce begins with
a zero byte.  `is_encrypted` derives the header length from byte 6 —
the first nonce byte, not the signed-flag — so it returns only the
18-byte unsigned header here, and the decrypt path's field extraction
then panics slicing the public key out of that short header.  Decoding
therefore does not derive the header length from the signed-flag
field, and decode of an encoded valid signed header does not recover
its fields. -/
theorem c1_signed_flag_bug :
    c1_input.getD 5 0 = 1 ∧
    is_encrypted c1_input = .ok (c1_input.take HEADER_LENGTH_FILE) ∧
    process_target trivialEd lenientPolicy c1_input = .panicked :=
  ⟨rfl, rfl, rfl⟩

/-- Claim C4, refuted (code bug).  `c4_input` is a signed file
container truncated to the 18-byte base header: fewer bytes than the
signed header length (114) implies.  Decoding panics (out-of-bounds
slice `file[0..114]`) instead of returning an error value. -/
theorem c4_truncated_signed_panics :
    c4_input.length < HEADER_LENGTH_FILE + PUBLIC_KEY_LENGTH + SIGNATURE_LENGTH ∧
    is_encrypted c4_input = .panicked :=
  ⟨by decide, by decide⟩

/-- Claim C2 as stated is false: at threshold 2 with 3 players, the
pool the encrypt path hands to `recover` for its post-split self-check
is not of size exactly `threshold` (it is all 3 produced shares). -/
theorem c2_counterexample : ¬ (encrypt_selfcheck_pool tailSSS 2 3 key0).length = 2 := by
  decide

/-- Claim C2 (amended): immediately after splitting, the encrypt path
self-checks by reconstructing from all the produced shares (a
superset of a threshold-sized quorum); if the recovered key differs
from the original (or recovery itself fails), the operation panics
with no output written, and otherwise it proceeds to write the share
files and the encrypted file. -/
theorem c2_selfcheck_all_shares (S : SSS) (players threshold : Nat) (sign : Bool)
    (key nonce pk : List Nat) (signFn : List Nat → List Nat) (pt : List Nat)
    (h1 : 1 ≤ threshold) (h2 : threshold ≤ players)
    (hk : key.length = KEY_LENGTH_BYTES) (hn : nonce.length = NONCE_LENGTH_BYTES) :
    (S.recover threshold (encrypt_selfcheck_pool S threshold players key) ≠ .ok key →
      encrypt_run S players threshold sign key nonce pk signFn pt = .panicked []) ∧
    (S.recover threshold (encrypt_selfcheck_pool S threshold players key) = .ok key →
      encrypt_run S players threshold sign key nonce pk signFn pt =
        .done
          ((S.deal threshold players key).map (share_file_bytes threshold sign nonce pk signFn))
          (enc_file_bytes threshold sign nonce pk signFn (aead_encrypt key nonce pt))) := by
  have hnp : ¬ players < threshold := by omega
  have hp1 : ¬ players < 1 := by omega
  have ht1 : ¬ threshold < 1 := by omega
  constructor
  · intro hne
    simp only [encrypt_run, if_neg hnp, if_neg hp1, if_neg ht1]
    cases hrec : S.recover threshold (encrypt_selfcheck_pool S threshold players key) with
    | error e => rfl
    | ok recovered =>
        have hx : recovered ≠ key := fun hkey => hne (by rw [hrec, hkey])
        simp [hx]
  · intro heq
    simp only [encrypt_run, if_neg hnp, if_neg hp1, if_neg ht1, heq]
    simp [chacha_encrypt_ok key nonce pt hk hn, encrypt_selfcheck_pool]

theorem c2_witness :
    encrypt_run tailSSS 3 2 false key0 nonce0 fpk0 (fun _ => List.replicate 64 0) [] =
      .done
        ((tailSSS.deal 2 3 key0).map
          (share_file_bytes 2 false nonce0 fpk0 fun _ => List.replicate 64 0))
        (enc_file_bytes 2 false nonce0 fpk0 (fun _ => List.replicate 64 0)
          (aead_encrypt key0 nonce0 [])) :=
  (c2_selfcheck_all_shares tailSSS 3 2 false key0 nonce0 fpk0 (fun _ => List.replicate 64 0)
    [] (by decide) (by decide) (by decide) (by decide)).2 (by decide)

/-- Claim C3: for every 32-byte key, 12-byte nonce and arbitrary
plaintext (empty or containing the container magic), encryption
succeeds and decryption of the produced ciphertext with the same key
and nonce returns exactly the original plaintext. -/
theorem c3_cipher_roundtrip (key nonce pt : List Nat) (hk : key.length = KEY_LENGTH_BYTES)
    (hn : nonce.length = NONCE_LENGTH_BYTES) :
    chacha_encrypt key nonce pt = .ok (aead_encrypt key nonce pt) ∧
    chacha_decrypt key nonce (aead_encrypt key nonce pt) = .ok pt :=
  ⟨chacha_encrypt_ok key nonce pt hk hn, chacha_decrypt_aead key nonce pt hk hn⟩

theorem c3_witness :
    chacha_encrypt key0 nonce0 [67, 67, 77] = .ok (aead_encrypt key0 nonce0 [67, 67, 77]) ∧
    chacha_decrypt key0 nonce0 (aead_encrypt key0 nonce0 [67, 67, 77]) =
      .ok [67, 67, 77] :=
  c3_cipher_roundtrip key0 nonce0 [67, 67, 77] (by decide) (by decide)

/-- Claim C5: any AEAD decryption failure surfaces as the one generic
obfuscated error, with the same content whatever the reason; and in
the decrypt pipeline such a failure never produces a success outcome
(no plaintext is output). -/
theorem c5_generic_auth_error :
    (∀ key nonce ct e, chacha_decrypt key nonce ct = .err e → e = "[reason obfuscated]") ∧
    (∀ (E : Ed25519) (S : SSS) (P : Policy) (info : TargetInfo) (st : GatherState)
      (key : List Nat) (e : String),
      S.recover st.threshold st.shares = .ok key →
      chacha_decrypt key info.nonce info.contents = .err e →
      ∀ v pt, decrypt_after_gather E S P info st ≠ .success v pt) := by
  constructor
  · intro key nonce ct e h
    simp only [chacha_decrypt] at h
    split at h
    · exact absurd h (by simp)
    · cases haead : aead_decrypt key nonce ct with
      | some p => rw [haead] at h; exact absurd h (by simp)
      | none => rw [haead] at h; cases h; rfl
  · intro E S P info st key e hrec hcha v pt
    simp only [decrypt_after_gather]
    split
    · simp
    · split
      · simp
      · split
        · simp
        · rw [hrec]
          simp [hcha]

/-- A successfully parsed share always carries the target file's
nonce: the only `ok` branches of `share_from_file` sit under the
nonce-equality guard. -/
lemma share_from_file_nonce (E : Ed25519) (bytes nonce : List Nat) (shf : ShareFromFile)
    (h : share_from_file E bytes nonce = .ok shf) : shf.nonce = nonce := by
  simp only [share_from_file] at h
  repeat' split at h
  all_goals cases h
  all_goals assumption

lemma share_try_from_ne_panicked (b : List Nat) : share_try_from b ≠ .panicked := by
  unfold share_try_from
  split <;> simp

/-- `share_from_file` never panics: all its slices are guarded by
length checks. -/
lemma share_from_file_ne_panicked (E : Ed25519) (bytes nonce : List Nat) :
    share_from_file E bytes nonce ≠ .panicked := by
  intro h
  simp only [share_from_file] at h
  repeat' split at h
  all_goals simp_all [share_try_from_ne_panicked]

/-- Threshold resolution never touches the pool. -/
lemma gather_resolve_shares (P : Policy) (st : GatherState) (t : Nat) :
    (gather_resolve P st t).shares = st.shares := by
  unfold gather_resolve
  by_cases h : t ≠ st.threshold
  · rw [if_pos h]
    cases P.resolveThreshold st.threshold t <;> rfl
  · rw [if_neg h]

/-- The pool after accepting a parsed share: unchanged (when a check
kills the process) or extended by its payload. -/
lemma gather_accept_shares_cases (E : Ed25519) (P : Policy) (b : Bool)
    (pk : Option (List Nat)) (st : GatherState) (shf : ShareFromFile) :
    (gather_accept E P b pk st shf).shares = st.shares ∨
    (gather_accept E P b pk st shf).shares = st.shares ++ [shf.share_data] := by
  have hres := gather_resolve_shares P st shf.threshold
  unfold gather_accept
  by_cases h1 : (gather_resolve P st shf.threshold).aborted = true
  · left
    rw [if_pos h1]
    exact hres
  · rw [if_neg h1]
    cases gather_sv E P b pk shf with
    | aborted => left; simpa using hres
    | proceed => right; simpa using hres

/-- The pool after one gather step: unchanged, or extended by the
parsed share's payload. -/
lemma gather_step_shares_cases (E : Ed25519) (P : Policy) (b : Bool) (pk : Option (List Nat))
    (nonce : List Nat) (st : GatherState) (c : List Nat) :
    (gather_step E P b pk nonce st c).shares = st.shares ∨
    ∃ shf, share_from_file E c nonce = .ok shf ∧
      (gather_step E P b pk nonce st c).shares = st.shares ++ [shf.share_data] := by
  by_cases hab : st.aborted = true
  · left; simp [gather_step, hab]
  · cases hofs : share_from_file E c nonce with
    | err e => left; simp [gather_step, hab, hofs]
    | panicked => left; simp [gather_step, hab, hofs]
    | ok shf =>
      have hstep : gather_step E P b pk nonce st c = gather_accept E P b pk st shf := by
        simp [gather_step, hab, hofs]
      rw [hstep]
      rcases gather_accept_shares_cases E P b pk st shf with h | h
      · exact .inl h
      · exact .inr ⟨shf, rfl, h⟩

/-- One gather step only ever adds the parsed share's payload. -/
lemma gather_step_shares_mem (E : Ed25519) (P : Policy) (b : Bool) (pk : Option (List Nat))
    (nonce : List Nat) (st : GatherState) (c s : List Nat)
    (h : s ∈ (gather_step E P b pk nonce st c).shares) :
    s ∈ st.shares ∨ ∃ shf, share_from_file E c nonce = .ok shf ∧ s = shf.share_data := by
  rcases gather_step_shares_cases E P b pk nonce st c with heq | ⟨shf, hofs, heq⟩
  · rw [heq] at h
    exact .inl h
  · rw [heq] at h
    rcases List.mem_append.mp h with h1 | h1
    · exact .inl h1
    · exact .inr ⟨shf, hofs, by simpa using h1⟩

/-- Every payload in the gathered pool came from some candidate that
parsed successfully. -/
lemma gather_shares_mem (E : Ed25519) (P : Policy) (b : Bool) (pk : Option (List Nat))
    (nonce : List Nat) :
    ∀ (cands : List (List Nat)) (st : GatherState) (s : List Nat),
      s ∈ (gather E P b pk nonce st cands).shares →
      s ∈ st.shares ∨ ∃ c ∈ cands, ∃ shf, share_from_file E c nonce = .ok shf ∧
        s = shf.share_data
  | [], _, _, h => .inl h
  | c :: cs, st, s, h => by
      rcases gather_shares_mem E P b pk nonce cs (gather_step E P b pk nonce st c) s h with
        h1 | ⟨c', hc', shf, hok, hs⟩
      · rcases gather_step_shares_mem E P b pk nonce st c s h1 with h2 | ⟨shf, hok, hs⟩
        · exact .inl h2
        · exact .inr ⟨c, by simp, shf, hok, hs⟩
      · exact .inr ⟨c', by simp [hc'], shf, hok, hs⟩

/-- Claim C6: every share admitted to the candidate pool has a parsed
nonce exactly equal to the target file's nonce — `share_from_file`
only succeeds under the nonce-equality guard, and everything in the
gathered pool came through `share_from_file` for the target nonce. -/
theorem c6_nonce_match (E : Ed25519) (P : Policy) (b : Bool) (pk : Option (List Nat))
    (nonce : List Nat) (t0 : Nat) :
    (∀ bytes shf, share_from_file E bytes nonce = .ok shf → shf.nonce = nonce) ∧
    (∀ (cands : List (List Nat)) (s : List Nat),
      s ∈ (gather E P b pk nonce ⟨t0, [], false⟩ cands).shares →
      ∃ c ∈ cands, ∃ shf, share_from_file E c nonce = .ok shf ∧ shf.nonce = nonce ∧
        s = shf.share_data) := by
  refine ⟨fun bytes shf h => share_from_file_nonce E bytes nonce shf h, ?_⟩
  intro cands s h
  rcases gather_shares_mem E P b pk nonce cands ⟨t0, [], false⟩ s h with h1 | ⟨c, hc, shf, hok, hs⟩
  · simp at h1
  · exact ⟨c, hc, shf, hok, share_from_file_nonce E c nonce shf hok, hs⟩

/-- Under the non-strict always-continue policy, share signature
verification never kills the process (the file's public key being
present). -/
lemma sv_lenient (E : Ed25519) (b : Bool) (pkb : List Nat) (shf : ShareFromFile) :
    share_signature_verification E lenientPolicy b (some pkb) shf = .proceed := by
  unfold share_signature_verification lenientPolicy
  cases hpk : shf.pub_key with
  | none => simp
  | some spk =>
    cases hsg : shf.signature with
    | none => simp
    | some ssig => simp

lemma gather_sv_lenient (E : Ed25519) (b : Bool) (pkb : List Nat) (shf : ShareFromFile) :
    gather_sv E lenientPolicy b (some pkb) shf = .proceed := by
  unfold gather_sv
  rw [sv_lenient]
  exact ite_self _

lemma gather_resolve_lenient (st : GatherState) (t : Nat) :
    gather_resolve lenientPolicy st t = st := by
  simp [gather_resolve, lenientPolicy]

/-- Under the non-strict keep-and-continue policy, one gather step is
exactly: append the payload if the candidate parses, else skip it. -/
lemma gather_step_lenient (E : Ed25519) (b : Bool) (pkb nonce : List Nat)
    (st : GatherState) (c : List Nat) (hab : st.aborted = false) :
    gather_step E lenientPolicy b (some pkb) nonce st c =
      match candData E nonce c with
      | some d => { st with shares := st.shares ++ [d] }
      | none => st := by
  unfold gather_step candData
  rw [if_neg (by simp [hab])]
  cases hofs : share_from_file E c nonce with
  | err e => rfl
  | panicked => exact absurd hofs (share_from_file_ne_panicked E c nonce)
  | ok shf =>
    dsimp only
    unfold gather_accept
    rw [gather_resolve_lenient]
    rw [if_neg (by simp [hab])]
    rw [gather_sv_lenient]

/-- Under the non-strict keep-and-continue policy, the scan is
exhaustive and accumulates exactly the parsable candidates' payloads,
never aborting and never changing the threshold. -/
lemma gather_lenient (E : Ed25519) (b : Bool) (pkb nonce : List Nat) :
    ∀ (cands : List (List Nat)) (st : GatherState), st.aborted = false →
      gather E lenientPolicy b (some pkb) nonce st cands =
        ⟨st.threshold, st.shares ++ cands.filterMap (candData E nonce), false⟩
  | [], st, hab => by
      cases st with
      | mk t sh ab =>
        simp only [gather, List.foldl_nil, List.filterMap_nil, List.append_nil]
        simp at hab
        rw [hab]
  | c :: cs, st, hab => by
      have hfold : gather E lenientPolicy b (some pkb) nonce st (c :: cs) =
          gather E lenientPolicy b (some pkb) nonce
            (gather_step E lenientPolicy b (some pkb) nonce st c) cs := rfl
      rw [hfold, gather_step_lenient E b pkb nonce st c hab]
      cases hcd : candData E nonce c with
      | none =>
          rw [gather_lenient E b pkb nonce cs st hab]
          simp [List.filterMap_cons, hcd]
      | some d =>
          rw [gather_lenient E b pkb nonce cs { st with shares := st.shares ++ [d] }
            (by simpa using hab)]
          simp [List.filterMap_cons, hcd]

/-- Claim C8: an error on a single candidate share never aborts the
scan (the step leaves the state untouched); the scan is exhaustive,
accumulating exactly the parsable candidates; and after the scan, if
the final pool is nonempty, reconstruction succeeds and decryption
succeeds, then the whole operation succeeds — i.e. the operation can
only fail post-scan through an insufficient pool, reconstruction
failure, or AEAD failure, not through individual rejections. -/
theorem c8_gather_skips (E : Ed25519) (S : SSS) (b : Bool) (pkb nonce : List Nat) (t0 : Nat)
    (cands : List (List Nat)) (info : TargetInfo) (key pt : List Nat) :
    (∀ (st : GatherState) (c : List Nat) (e : String), share_from_file E c nonce = .err e →
      gather_step E lenientPolicy b (some pkb) nonce st c = st) ∧
    gather E lenientPolicy b (some pkb) nonce ⟨t0, [], false⟩ cands =
      ⟨t0, cands.filterMap (candData E nonce), false⟩ ∧
    (info.is_signed = false →
      cands.filterMap (candData E nonce) ≠ [] →
      S.recover t0 (cands.filterMap (candData E nonce)) = .ok key →
      chacha_decrypt key info.nonce info.contents = .ok pt →
      decrypt_after_gather E S lenientPolicy info
        ⟨t0, cands.filterMap (candData E nonce), false⟩ = .success info.version pt) := by
  refine ⟨?_, ?_, ?_⟩
  · intro st c e h
    by_cases hab : st.aborted = true
    · simp [gather_step, hab]
    · simp [gather_step, hab, h]
  · rw [gather_lenient E b pkb nonce cands ⟨t0, [], false⟩ rfl]
    simp
  · intro hus hne hrec hcha
    have hlen : ¬ (cands.filterMap (candData E nonce)).length < 1 := by
      have := List.length_pos.mpr hne
      omega
    simp only [decrypt_after_gather]
    rw [if_neg (by simp)]
    rw [if_neg (by simpa using hlen)]
    simp [hus, hrec, hcha]

theorem c8_witness :
    gather trivialEd lenientPolicy false (some fpk0) nonce0 ⟨1, [], false⟩ [wshare1, [9, 9]] =
      ⟨1, [wshare1, [9, 9]].filterMap (candData trivialEd nonce0), false⟩ ∧
    decrypt_after_gather trivialEd tailSSS lenientPolicy
      ⟨1, 1, false, nonce0, none, none, aead_encrypt key0 nonce0 []⟩
      ⟨1, [wshare1, [9, 9]].filterMap (candData trivialEd nonce0), false⟩ = .success 1 [] :=
  ⟨(c8_gather_skips trivialEd tailSSS false fpk0 nonce0 1 [wshare1, [9, 9]]
      ⟨1, 1, false, nonce0, none, none, aead_encrypt key0 nonce0 []⟩ key0 []).2.1,
   (c8_gather_skips trivialEd tailSSS false fpk0 nonce0 1 [wshare1, [9, 9]]
      ⟨1, 1, false, nonce0, none, none, aead_encrypt key0 nonce0 []⟩ key0 []).2.2
     rfl (by decide) (by decide)
     (chacha_decrypt_aead key0 nonce0 [] (by decide) (by decide))⟩

theorem c6_witness :
    share_from_file trivialEd wshare1 nonce0 =
      .ok ⟨2, false, nonce0, none, none, 1 :: key0⟩ ∧
    (⟨2, false, nonce0, none, none, 1 :: key0⟩ : ShareFromFile).nonce = nonce0 :=
  ⟨by decide,
    (c6_nonce_match trivialEd lenientPolicy false none nonce0 2).1 wshare1
      ⟨2, false, nonce0, none, none, 1 :: key0⟩ (by decide)⟩

/-- Unpack `goodSignedShareB`. -/
lemma goodSigned_unpack (E : Ed25519) (nonce : List Nat) (t : Nat) (fpk c : List Nat)
    (hg : goodSignedShareB E nonce t fpk c = true) :
    ∃ shf sg, share_from_file E c nonce = .ok shf ∧ shf.threshold = t ∧
      shf.is_signed = true ∧ shf.pub_key = some fpk ∧ shf.signature = some sg ∧
      E.verify fpk
        (construct_header_share shf.threshold shf.is_signed shf.nonce ++ fpk ++
          shf.share_data) sg = true := by
  unfold goodSignedShareB at hg
  cases hofs : share_from_file E c nonce <;> rw [hofs] at hg
  case err e => simp at hg
  case panicked => simp at hg
  case ok shf =>
    dsimp only at hg
    cases hsg : shf.signature <;> rw [hsg] at hg
    case none => simp at hg
    case some sg =>
      simp only [Bool.and_eq_true, beq_iff_eq] at hg
      obtain ⟨⟨⟨ht, hsgn⟩, hpk⟩, hv⟩ := hg
      exact ⟨shf, sg, rfl, ht, hsgn, hpk, hsg, hv⟩

/-- Unpack `reSignedShareB`. -/
lemma reSigned_unpack (E : Ed25519) (nonce : List Nat) (t : Nat) (fpk c : List Nat)
    (hb : reSignedShareB E nonce t fpk c = true) :
    ∃ shf spk sg, share_from_file E c nonce = .ok shf ∧ shf.threshold = t ∧
      shf.is_signed = true ∧ shf.pub_key = some spk ∧ shf.signature = some sg ∧
      spk ≠ fpk ∧
      E.verify spk
        (construct_header_share shf.threshold shf.is_signed shf.nonce ++ spk ++
          shf.share_data) sg = true := by
  unfold reSignedShareB at hb
  cases hofs : share_from_file E c nonce <;> rw [hofs] at hb
  case err e => simp at hb
  case panicked => simp at hb
  case ok shf =>
    dsimp only at hb
    cases hpk : shf.pub_key <;> rw [hpk] at hb
    case none => simp at hb
    case some spk =>
      cases hsg : shf.signature <;> rw [hsg] at hb
      case none => simp at hb
      case some sg =>
        simp only [Bool.and_eq_true, beq_iff_eq, bne_iff_ne, ne_eq] at hb
        obtain ⟨⟨ht, hsgn⟩, hne, hv⟩ := hb
        exact ⟨shf, spk, sg, rfl, ht, hsgn, hpk, hsg, hne, hv⟩

/-- A correctly signed share (carrying the file's own public key, with
a verifying signature) passes `share_signature_verification` under any
policy. -/
lemma sv_good (E : Ed25519) (P : Policy) (fpk : List Nat) (shf : ShareFromFile)
    (sg : List Nat) (hsgn : shf.is_signed = true) (hpk : shf.pub_key = some fpk)
    (hsg : shf.signature = some sg)
    (hv : E.verify fpk
      (construct_header_share shf.threshold shf.is_signed shf.nonce ++ fpk ++
        shf.share_data) sg = true) :
    share_signature_verification E P true (some fpk) shf = .proceed := by
  unfold share_signature_verification
  rw [hsgn] at hv
  simp only [List.append_assoc] at hv
  simp [hpk, hsg, hsgn, hv]

/-- Accepting a correctly signed share with a matching threshold: the
payload is pushed, nothing else changes, under any policy. -/
lemma gather_step_good (E : Ed25519) (P : Policy) (fpk nonce : List Nat)
    (st : GatherState) (c : List Nat) (hab : st.aborted = false)
    (hg : goodSignedShareB E nonce st.threshold fpk c = true) :
    gather_step E P true (some fpk) nonce st c =
      ⟨st.threshold, st.shares ++ (candData E nonce c).toList, false⟩ := by
  obtain ⟨shf, sg, hofs, ht, hsgn, hpk, hsg, hv⟩ :=
    goodSigned_unpack E nonce st.threshold fpk c hg
  unfold gather_step candData
  rw [if_neg (by simp [hab]), hofs]
  dsimp only
  unfold gather_accept
  have hres : gather_resolve P st shf.threshold = st := by
    unfold gather_resolve
    rw [if_neg (by simp [ht])]
  rw [hres, if_neg (by simp [hab])]
  have hsv : gather_sv E P true (some fpk) shf = .proceed := by
    unfold gather_sv
    rw [if_pos (by simp [hsgn])]
    exact sv_good E P fpk shf sg hsgn hpk hsg hv
  rw [hsv]
  cases st with
  | mk t sh ab => simp_all

/-- A re-signed share (public key differing from the file's) kills the
process in strict mode at the public-key cross-check. -/
lemma gather_step_resigned_strict (E : Ed25519) (fpk nonce : List Nat)
    (st : GatherState) (c : List Nat) (hab : st.aborted = false)
    (hb : reSignedShareB E nonce st.threshold fpk c = true) :
    gather_step E strictPolicy true (some fpk) nonce st c = { st with aborted := true } := by
  obtain ⟨shf, spk, sg, hofs, ht, hsgn, hpk, hsg, hne, hv⟩ :=
    reSigned_unpack E nonce st.threshold fpk c hb
  unfold gather_step
  rw [if_neg (by simp [hab]), hofs]
  dsimp only
  unfold gather_accept
  have hres : gather_resolve strictPolicy st shf.threshold = st := by
    unfold gather_resolve
    rw [if_neg (by simp [ht])]
  rw [hres, if_neg (by simp [hab])]
  have hsv : gather_sv E strictPolicy true (some fpk) shf = .aborted := by
    unfold gather_sv
    rw [if_pos (by simp [hsgn])]
    unfold share_signature_verification strictPolicy
    simp [hpk, hsg, hne]
  rw [hsv]

/-- A dead scan state swallows the rest of the directory. -/
lemma gather_aborted (E : Ed25519) (P : Policy) (b : Bool) (pk : Option (List Nat))
    (nonce : List Nat) :
    ∀ (cands : List (List Nat)) (st : GatherState), st.aborted = true →
      gather E P b pk nonce st cands = st
  | [], _, _ => rfl
  | c :: cs, st, h => by
      have hstep : gather_step E P b pk nonce st c = st := by simp [gather_step, h]
      have hfold : gather E P b pk nonce st (c :: cs) =
          gather E P b pk nonce (gather_step E P b pk nonce st c) cs := rfl
      rw [hfold, hstep]
      exact gather_aborted E P b pk nonce cs st h

/-- Accepting correctly signed, threshold-matching shares in sequence
accumulates their payloads under any policy. -/
lemma gather_good_list (E : Ed25519) (P : Policy) (fpk nonce : List Nat) :
    ∀ (cands : List (List Nat)) (st : GatherState), st.aborted = false →
      (∀ c ∈ cands, goodSignedShareB E nonce st.threshold fpk c = true) →
      gather E P true (some fpk) nonce st cands =
        ⟨st.threshold, st.shares ++ cands.filterMap (candData E nonce), false⟩
  | [], st, hab, _ => by
      cases st with
      | mk t sh ab =>
        simp only [gather, List.foldl_nil, List.filterMap_nil, List.append_nil]
        simp at hab
        rw [hab]
  | c :: cs, st, hab, hgood => by
      have h1 := gather_step_good E P fpk nonce st c hab (hgood c (by simp))
      have hfold : gather E P true (some fpk) nonce st (c :: cs) =
          gather E P true (some fpk) nonce (gather_step E P true (some fpk) nonce st c) cs :=
        rfl
      have h2 := gather_good_list E P fpk nonce cs
        ⟨st.threshold, st.shares ++ (candData E nonce c).toList, false⟩ rfl
        (fun x hx => hgood x (List.mem_cons_of_mem c hx))
      rw [hfold, h1, h2]
      cases hcd : candData E nonce c <;> simp [List.filterMap_cons, hcd]

/-- Claim C7: a signed file whose share set includes one share
re-signed under a different keypair.  Non-strict mode (operator
continues): the scan still accepts every share including the re-signed
one, and with a quorum of valid payloads in the pool decryption
succeeds with the original plaintext.  Strict mode: the re-signed
share's verification failure kills the whole operation during the
scan. -/
theorem c7_resigned_share (E : Ed25519) (S : SSS) (fpk fsig key pt nonce : List Nat)
    (ver t0 : Nat) (gs1 gs2 : List (List Nat)) (bshare : List Nat)
    (hg1 : ∀ c ∈ gs1, goodSignedShareB E nonce t0 fpk c = true)
    (hb : reSignedShareB E nonce t0 fpk bshare = true)
    (hrec : S.recover t0 ((gs1 ++ bshare :: gs2).filterMap (candData E nonce)) = .ok key)
    (hk : key.length = KEY_LENGTH_BYTES) (hn : nonce.length = NONCE_LENGTH_BYTES)
    (hfv : E.verify fpk (file_signable ver t0 nonce fpk (aead_encrypt key nonce pt)) fsig =
      true) :
    decrypt_from_info E S lenientPolicy
        ⟨ver, t0, true, nonce, some fpk, some fsig, aead_encrypt key nonce pt⟩
        (gs1 ++ bshare :: gs2) = .success ver pt ∧
    decrypt_from_info E S strictPolicy
        ⟨ver, t0, true, nonce, some fpk, some fsig, aead_encrypt key nonce pt⟩
        (gs1 ++ bshare :: gs2) = .fatal "aborted during share gathering" := by
  obtain ⟨shfb, spk, sg, hofsb, htb, _, _, _, _, _⟩ := reSigned_unpack E nonce t0 fpk bshare hb
  have hdb : candData E nonce bshare = some shfb.share_data := by
    unfold candData
    rw [hofsb]
  constructor
  · unfold decrypt_from_info
    rw [gather_lenient E true fpk nonce (gs1 ++ bshare :: gs2) ⟨t0, [], false⟩ rfl]
    have hpoolne : 1 ≤ ((gs1 ++ bshare :: gs2).filterMap (candData E nonce)).length := by
      rw [List.filterMap_append, List.filterMap_cons, hdb]
      simp only [List.length_append, List.length_cons]
      omega
    unfold decrypt_after_gather
    rw [if_neg (by simp)]
    rw [if_neg (by
      dsimp only
      simp only [List.nil_append]
      omega)]
    rw [List.filterMap_append] at hrec
    simp [hfv, hrec, chacha_decrypt_aead key nonce pt hk hn]
  · unfold decrypt_from_info
    have hfold : gather E strictPolicy true (some fpk) nonce ⟨t0, [], false⟩
        (gs1 ++ bshare :: gs2) =
        gather E strictPolicy true (some fpk) nonce
          (gather E strictPolicy true (some fpk) nonce ⟨t0, [], false⟩ gs1)
          (bshare :: gs2) := by
      simp [gather, List.foldl_append]
    rw [hfold]
    rw [gather_good_list E strictPolicy fpk nonce gs1 ⟨t0, [], false⟩ rfl hg1]
    have hstepb := gather_step_resigned_strict E fpk nonce
      ⟨t0, [] ++ gs1.filterMap (candData E nonce), false⟩ bshare rfl hb
    have hfold2 : gather E strictPolicy true (some fpk) nonce
        ⟨t0, [] ++ gs1.filterMap (candData E nonce), false⟩ (bshare :: gs2) =
        gather E strictPolicy true (some fpk) nonce
          (gather_step E strictPolicy true (some fpk) nonce
            ⟨t0, [] ++ gs1.filterMap (candData E nonce), false⟩ bshare) gs2 := rfl
    rw [hfold2, hstepb,
      gather_aborted E strictPolicy true (some fpk) nonce gs2 _ rfl]
    unfold decrypt_after_gather
    rw [if_pos (by simp)]

/-- The file's signable byte sequence determines the threshold byte:
two reconstructions differing only in the threshold agree iff the
thresholds agree. -/
lemma file_signable_inj (v t t' : Nat) (nonce pk body : List Nat) :
    file_signable v t nonce pk body = file_signable v t' nonce pk body ↔ t = t' := by
  simp [file_signable, HEADER_FILE]

/-- Accepting a good share whose threshold `t1` mismatches the current
`t0`, when the operator overrides to `o`: the effective threshold
becomes `o` and the payload is pushed. -/
lemma gather_step_override (E : Ed25519) (strict : Bool) (t0 t1 o : Nat)
    (fpk nonce : List Nat) (st : GatherState) (c : List Nat) (hab : st.aborted = false)
    (hst : st.threshold = t0) (hne : t1 ≠ t0)
    (hc : goodSignedShareB E nonce t1 fpk c = true) :
    gather_step E (overridePolicy t0 t1 o strict) true (some fpk) nonce st c =
      ⟨o, st.shares ++ (candData E nonce c).toList, false⟩ := by
  obtain ⟨shf, sg, hofs, ht, hsgn, hpk, hsg, hv⟩ := goodSigned_unpack E nonce t1 fpk c hc
  unfold gather_step candData
  rw [if_neg (by simp [hab]), hofs]
  dsimp only
  unfold gather_accept
  have hres : gather_resolve (overridePolicy t0 t1 o strict) st shf.threshold =
      { st with threshold := o } := by
    unfold gather_resolve overridePolicy
    rw [if_pos (by simp [ht, hst]; exact hne)]
    dsimp only
    rw [if_pos ⟨hst, ht⟩]
  rw [hres]
  rw [if_neg (by simp [hab])]
  have hsv : gather_sv E (overridePolicy t0 t1 o strict) true (some fpk) shf = .proceed := by
    unfold gather_sv
    rw [if_pos (by simp [hsgn])]
    exact sv_good E _ fpk shf sg hsgn hpk hsg hv
  rw [hsv]
  cases st with
  | mk a b c => simp_all

/-- Claim C9: operator-supplied override threshold `o` on a mismatch
(file says `t0`, first share says `t1`).  The gathered state adopts
`o`, all later shares are cross-checked against `o` (the operator is
never prompted again: the policy would abort on any other prompt),
the recovery call uses `o` as the reconstruction threshold, and under
a binding file signature the strict-mode operation succeeds iff the
effective threshold `o` equals the header threshold `t0`; non-strict
mode warns and still succeeds. -/
theorem c9_threshold_override (E : Ed25519) (S : SSS) (fpk fsig key pt nonce : List Nat)
    (ver t0 t1 o : Nat) (c1 : List Nat) (rest : List (List Nat))
    (hne : t1 ≠ t0)
    (hc1 : goodSignedShareB E nonce t1 fpk c1 = true)
    (hrest : ∀ c ∈ rest, goodSignedShareB E nonce o fpk c = true)
    (hrec : S.recover o ((c1 :: rest).filterMap (candData E nonce)) = .ok key)
    (hk : key.length = KEY_LENGTH_BYTES) (hn : nonce.length = NONCE_LENGTH_BYTES)
    (hbind : ∀ m, E.verify fpk m fsig = true ↔
      m = file_signable ver t0 nonce fpk (aead_encrypt key nonce pt)) :
    (∀ strict, gather E (overridePolicy t0 t1 o strict) true (some fpk) nonce
      ⟨t0, [], false⟩ (c1 :: rest) =
      ⟨o, (c1 :: rest).filterMap (candData E nonce), false⟩) ∧
    decrypt_from_info E S (overridePolicy t0 t1 o false)
      ⟨ver, t0, true, nonce, some fpk, some fsig, aead_encrypt key nonce pt⟩
      (c1 :: rest) = .success ver pt ∧
    (decrypt_from_info E S (overridePolicy t0 t1 o true)
      ⟨ver, t0, true, nonce, some fpk, some fsig, aead_encrypt key nonce pt⟩
      (c1 :: rest) = .success ver pt ↔ o = t0) := by
  obtain ⟨shf1, sg1, hofs1, _, _, _, _, _⟩ := goodSigned_unpack E nonce t1 fpk c1 hc1
  have hcd1 : candData E nonce c1 = some shf1.share_data := by
    unfold candData
    rw [hofs1]
  have hgather : ∀ strict, gather E (overridePolicy t0 t1 o strict) true (some fpk) nonce
      ⟨t0, [], false⟩ (c1 :: rest) =
      ⟨o, (c1 :: rest).filterMap (candData E nonce), false⟩ := by
    intro strict
    have hstep := gather_step_override E strict t0 t1 o fpk nonce ⟨t0, [], false⟩ c1
      rfl rfl hne hc1
    have hfold : gather E (overridePolicy t0 t1 o strict) true (some fpk) nonce
        ⟨t0, [], false⟩ (c1 :: rest) =
        gather E (overridePolicy t0 t1 o strict) true (some fpk) nonce
          (gather_step E (overridePolicy t0 t1 o strict) true (some fpk) nonce
            ⟨t0, [], false⟩ c1) rest := rfl
    rw [hfold, hstep]
    rw [gather_good_list E (overridePolicy t0 t1 o strict) fpk nonce rest
      ⟨o, [] ++ (candData E nonce c1).toList, false⟩ rfl hrest]
    simp [List.filterMap_cons, hcd1]
  have hlen : 1 ≤ ((c1 :: rest).filterMap (candData E nonce)).length := by
    rw [List.filterMap_cons, hcd1]
    simp
  have hresult : ∀ strict, decrypt_from_info E S (overridePolicy t0 t1 o strict)
      ⟨ver, t0, true, nonce, some fpk, some fsig, aead_encrypt key nonce pt⟩
      (c1 :: rest) =
      (if E.verify fpk (file_signable ver o nonce fpk (aead_encrypt key nonce pt)) fsig =
          true then
        .success ver pt
      else if strict then .fatal "signing mismatch with encrypted file"
      else .success ver pt) := by
    intro strict
    unfold decrypt_from_info
    rw [hgather strict]
    unfold decrypt_after_gather
    rw [if_neg (by simp)]
    rw [if_neg (by first | omega | (dsimp only; omega))]
    by_cases hv : E.verify fpk (file_signable ver o nonce fpk (aead_encrypt key nonce pt))
        fsig = true
    · simp [overridePolicy, hv, hrec, chacha_decrypt_aead key nonce pt hk hn]
    · cases strict with
      | true => simp [overridePolicy, hv]
      | false => simp [overridePolicy, hv, hrec, chacha_decrypt_aead key nonce pt hk hn]
  have hverify : E.verify fpk (file_signable ver o nonce fpk (aead_encrypt key nonce pt))
      fsig = true ↔ o = t0 := by
    rw [hbind]
    exact file_signable_inj ver o t0 nonce fpk (aead_encrypt key nonce pt)
  refine ⟨hgather, ?_, ?_⟩
  · rw [hresult false]
    split <;> simp
  · rw [hresult true]
    constructor
    · intro hsucc
      by_contra hneq
      rw [if_neg (fun hv => hneq (hverify.mp hv))] at hsucc
      simp at hsucc
    · intro heq
      rw [if_pos (hverify.mpr heq)]

set_option maxRecDepth 100000 in
theorem c9_witness :
    decrypt_from_info c9Ed anySSS (overridePolicy 2 3 5 false)
      ⟨7, 2, true, nonce0, some fpk0, some fsig0, aead_encrypt key0 nonce0 []⟩
      (w91 :: [w92]) = .success 7 [] ∧
    (decrypt_from_info c9Ed anySSS (overridePolicy 2 3 5 true)
      ⟨7, 2, true, nonce0, some fpk0, some fsig0, aead_encrypt key0 nonce0 []⟩
      (w91 :: [w92]) = .success 7 [] ↔ 5 = 2) :=
  ⟨(c9_threshold_override c9Ed anySSS fpk0 fsig0 key0 [] nonce0 7 2 3 5 w91 [w92]
      (by decide) (by decide) (by decide) (by decide) (by decide) (by decide)
      (by intro m; simp [c9Ed, c9m0])).2.1,
   (c9_threshold_override c9Ed anySSS fpk0 fsig0 key0 [] nonce0 7 2 3 5 w91 [w92]
      (by decide) (by decide) (by decide) (by decide) (by decide) (by decide)
      (by intro m; simp [c9Ed, c9m0])).2.2⟩

set_option maxRecDepth 100000 in
theorem c7_witness :
    decrypt_from_info trivialEd tailSSS lenientPolicy
        ⟨7, 2, true, nonce0, some fpk0, some fsig0, aead_encrypt key0 nonce0 []⟩
        ([wg1] ++ wb1 :: []) = .success 7 [] ∧
    decrypt_from_info trivialEd tailSSS strictPolicy
        ⟨7, 2, true, nonce0, some fpk0, some fsig0, aead_encrypt key0 nonce0 []⟩
        ([wg1] ++ wb1 :: []) = .fatal "aborted during share gathering" :=
  c7_resigned_share trivialEd tailSSS fpk0 fsig0 key0 [] nonce0 7 2 [wg1] [] wb1
    (by decide) (by decide) (by decide) (by decide) (by decide) (by decide)

theorem c5_witness :
    chacha_decrypt key0 nonce0 [] = .err "[reason obfuscated]" ∧
    decrypt_after_gather trivialEd anySSS lenientPolicy ⟨1, 2, false, nonce0, none, none, []⟩
        ⟨2, [0 :: key0], false⟩ ≠ .success 1 [] :=
  ⟨by decide,
    c5_generic_auth_error.2 trivialEd anySSS lenientPolicy ⟨1, 2, false, nonce0, none, none, []⟩
      ⟨2, [0 :: key0], false⟩ key0 "[reason obfuscated]" (by decide) (by decide) 1 []⟩

/-- The source's unsigned encrypted-file layout is
`enc_file_with_version` at the writer's constant version. -/
lemma enc_unsigned_source (t : Nat) (nonce pk : List Nat) (signFn : List Nat → List Nat)
    (ct : List Nat) :
    enc_file_bytes t false nonce pk signFn ct = enc_file_with_version ALGO_VERSION t nonce ct := by
  simp [enc_file_bytes, enc_file_with_version]

/-- Decoding a well-formed unsigned file container recovers every
field verbatim — for any value of the version byte.  (The
`nonce.getD 0 0 = 0 ∨ 96 ≤ ct.length` side condition routes around
the `is_encrypted` byte-6 bug, claims C1/C4.) -/
lemma process_target_unsigned (E : Ed25519) (P : Policy) (v t : Nat) (nonce ct : List Nat)
    (hn : nonce.length = NONCE_LENGTH_BYTES) (hdec : nonce.getD 0 0 = 0 ∨ 96 ≤ ct.length) :
    process_target E P (enc_file_with_version v t nonce ct) =
      .ok ⟨v, t, false, nonce, none, none, ct⟩ := by
  cases nonce with
  | nil => simp [NONCE_LENGTH_BYTES] at hn
  | cons n0 nr =>
    have hnr : nr.length = 11 := by
      simp [NONCE_LENGTH_BYTES] at hn
      omega
    have hE : enc_file_with_version v t (n0 :: nr) ct =
        67 :: 67 :: 77 :: v :: t :: 0 :: n0 :: (nr ++ ct) := by
      simp [enc_file_with_version, HEADER_FILE]
    have h1 : (nr ++ ct).take 11 = nr := List.take_left' hnr
    have h2 : (nr ++ ct).drop 11 = ct := List.drop_left' hnr
    have h3 : nr.take 11 = nr := by
      rw [← hnr]
      exact List.take_length nr
    rw [hE]
    rcases hdec with h0 | hct
    · have hn0 : n0 = 0 := by simpa using h0
      subst hn0
      simp [process_target, is_encrypted, HEADER_LENGTH_FILE, HEADER_FILE,
        NONCE_LENGTH_BYTES, HEADER_PRE_NONCE_BYTES_FILE, HEADER_IS_SIGNED_BYTE_FILE,
        List.take_take, h1, h2, hnr]
      rw [if_neg (by omega)]
      simp [h3]
    · by_cases hn0 : n0 = 0
      · subst hn0
        simp [process_target, is_encrypted, HEADER_LENGTH_FILE, HEADER_FILE,
          NONCE_LENGTH_BYTES, HEADER_PRE_NONCE_BYTES_FILE, HEADER_IS_SIGNED_BYTE_FILE,
          List.take_take, h1, h2, hnr]
        rw [if_neg (by omega)]
        simp [h3]
      · simp [process_target, is_encrypted, rustSlice, hn0, HEADER_LENGTH_FILE,
          HEADER_FILE, NONCE_LENGTH_BYTES, HEADER_PRE_NONCE_BYTES_FILE,
          HEADER_IS_SIGNED_BYTE_FILE, PUBLIC_KEY_LENGTH, SIGNATURE_LENGTH,
          List.take_take, h1, h2, hnr]
        rw [if_neg (by omega), if_pos (by omega)]
        simp [List.take_take, h1, h3]

/-- The decrypt tail treats the parsed version as pure data when the
file is unsigned: changing it only changes the reported version. -/
lemma decrypt_after_version (E : Ed25519) (S : SSS) (P : Policy) (info : TargetInfo)
    (st : GatherState) (v : Nat) (hus : info.is_signed = false) :
    decrypt_after_gather E S P { info with version := v } st =
      (match decrypt_after_gather E S P info st with
       | .success _ pt => .success v pt
       | .fatal e => .fatal e
       | .panicked => .panicked) := by
  unfold decrypt_after_gather
  by_cases hab : st.aborted = true
  · simp [hab]
  · by_cases hz : st.shares.length < 1
    · simp [hab, hz]
    · cases hrec : S.recover st.threshold st.shares with
      | error e => simp [hab, hz, hus, hrec]
      | ok key =>
        cases hcha : chacha_decrypt key info.nonce info.contents with
        | ok p => simp [hab, hz, hus, hrec, hcha]
        | err e => simp [hab, hz, hus, hrec, hcha]
        | panicked => simp [hab, hz, hus, hrec, hcha]

lemma decrypt_from_info_version (E : Ed25519) (S : SSS) (P : Policy) (info : TargetInfo)
    (cands : List (List Nat)) (v : Nat) (hus : info.is_signed = false) :
    decrypt_from_info E S P { info with version := v } cands =
      (match decrypt_from_info E S P info cands with
       | .success _ pt => .success v pt
       | .fatal e => .fatal e
       | .panicked => .panicked) :=
  decrypt_after_version E S P info _ v hus

/-- Claim C10: the algorithm-version byte is never validated.  The
writer's unsigned layout is `enc_file_with_version` at `ALGO_VERSION`;
decoding a well-formed unsigned container with ANY version byte
succeeds and returns that byte verbatim (no comparison against
`ALGO_VERSION`, no failure); and the whole decrypt run on the
version-`v` container behaves exactly as on the version-`ALGO_VERSION`
container except for the reported version. -/
theorem c10_version_unvalidated (E : Ed25519) (S : SSS) (P : Policy) (v t : Nat)
    (nonce ct pk : List Nat) (signFn : List Nat → List Nat) (cands : List (List Nat))
    (hn : nonce.length = NONCE_LENGTH_BYTES) (hdec : nonce.getD 0 0 = 0 ∨ 96 ≤ ct.length) :
    enc_file_bytes t false nonce pk signFn ct =
      enc_file_with_version ALGO_VERSION t nonce ct ∧
    process_target E P (enc_file_with_version v t nonce ct) =
      .ok ⟨v, t, false, nonce, none, none, ct⟩ ∧
    decrypt_run E S P (enc_file_with_version v t nonce ct) cands =
      (match decrypt_run E S P (enc_file_with_version ALGO_VERSION t nonce ct) cands with
       | .success _ pt => .success v pt
       | .fatal e => .fatal e
       | .panicked => .panicked) ∧
    (∀ (fpk fsig key pt2 ct2 : List Nat) (st : GatherState),
      st.aborted = false → ¬ st.shares.length < 1 →
      E.verify fpk (file_signable v st.threshold nonce fpk ct2) fsig = true →
      S.recover st.threshold st.shares = .ok key →
      chacha_decrypt key nonce ct2 = .ok pt2 →
      decrypt_after_gather E S P ⟨v, t, true, nonce, some fpk, some fsig, ct2⟩ st =
        .success v pt2) := by
  have h1 := process_target_unsigned E P v t nonce ct hn hdec
  have h2 := process_target_unsigned E P ALGO_VERSION t nonce ct hn hdec
  refine ⟨enc_unsigned_source t nonce pk signFn ct, h1, ?_, ?_⟩
  · unfold decrypt_run
    rw [h1, h2]
    dsimp only
    exact decrypt_from_info_version E S P ⟨ALGO_VERSION, t, false, nonce, none, none, ct⟩
      cands v rfl
  · intro fpk fsig key pt2 ct2 st hab hz hv hrec hcha
    unfold decrypt_after_gather
    rw [if_neg (by simp [hab]), if_neg hz]
    simp [hv, hrec, hcha]

theorem c10_witness :
    process_target trivialEd lenientPolicy (enc_file_with_version 7 2 nonceZ [1, 2, 3]) =
      .ok ⟨7, 2, false, nonceZ, none, none, [1, 2, 3]⟩ ∧
    decrypt_run trivialEd anySSS lenientPolicy (enc_file_with_version 7 2 nonceZ [1, 2, 3])
        [] =
      (match decrypt_run trivialEd anySSS lenientPolicy
          (enc_file_with_version ALGO_VERSION 2 nonceZ [1, 2, 3]) [] with
       | .success _ pt => .success 7 pt
       | .fatal e => .fatal e
       | .panicked => .panicked) ∧
    decrypt_after_gather trivialEd anySSS lenientPolicy
      ⟨7, 2, true, nonceZ, some fpk0, some fsig0, aead_encrypt key0 nonceZ []⟩
      ⟨1, [0 :: key0], false⟩ = .success 7 [] :=
  ⟨(c10_version_unvalidated trivialEd anySSS lenientPolicy 7 2 nonceZ [1, 2, 3] fpk0
      (fun _ => []) [] (by decide) (.inl (by decide))).2.1,
   (c10_version_unvalidated trivialEd anySSS lenientPolicy 7 2 nonceZ [1, 2, 3] fpk0
      (fun _ => []) [] (by decide) (.inl (by decide))).2.2.1,
   (c10_version_unvalidated trivialEd anySSS lenientPolicy 7 2 nonceZ [1, 2, 3] fpk0
      (fun _ => []) [] (by decide) (.inl (by decide))).2.2.2 fpk0 fsig0 key0 []
     (aead_encrypt key0 nonceZ []) ⟨1, [0 :: key0], false⟩ rfl (by decide) (by decide)
     (by decide) (chacha_decrypt_aead key0 nonceZ [] (by decide) (by decide))⟩

end CCM
